import Mathlib

/-!
Shallow embedding of `src/utils/builder.py` (DHD Builder).

The file models, straight from the source:
* Python `dict` semantics as insertion-ordered association lists
  (`pyInsert`: an existing key keeps its position and receives the new
  value; a new key is appended; `dictGet?` is `d[k]` / `k in d`);
* `slugify` (lines 21-24), for ASCII inputs, on which the NFKD
  normalisation and `encode("ascii","ignore")` steps are the identity;
* `create_dhd_excel` (lines 26-73), with the workbook as an association
  list from (row, column) to cell value and the file system abstracted
  away (the parsed JSON document is a structure, the template a sheet);
* `make_component_dict` (lines 75-91);
* `official_component_dict` (lines 93-107), with the directory contents
  passed in as the list of entry names in enumeration order, and
  `glob('*')`, `os.path.basename`, `os.path.splitext` modelled;
* `stack_dhd` (lines 109-162): images carry width, height and a pixel
  payload; the canvas records its allocated size, background colour and
  the ordered `alpha_composite` paste events, of which the rendered
  pixels are a deterministic function, so equality of canvases is
  pixel identity of the rendered outputs.
-/

set_option autoImplicit false

namespace DHD

universe u v

variable {α : Type u} {β : Type v}

/-- Python dict assignment `d[k] = v` on an insertion-ordered association
list: an existing key keeps its position and gets the new value, a new
key is appended at the end. -/
def pyInsert [DecidableEq α] (k : α) (v : β) : List (α × β) → List (α × β)
  | [] => [(k, v)]
  | (k0, v0) :: rest =>
      if k0 = k then (k0, v) :: rest else (k0, v0) :: pyInsert k v rest

/-- Python dict read `d.get(k)` / membership `k in d`: the value at the
key, if present. -/
def dictGet? [DecidableEq α] (k : α) : List (α × β) → Option β
  | [] => none
  | (k0, v0) :: rest => if k0 = k then some v0 else dictGet? k rest

/-- The value of the last pair carrying key `k` in a list of pairs:
the value that last-write-wins dict construction keeps. -/
def lastValue [DecidableEq α] (k : α) : List (α × β) → Option β
  | [] => none
  | (k0, v) :: rest =>
      match lastValue k rest with
      | some w => some w
      | none => if k0 = k then some v else none

/-- Key list of a dict built by repeated insertion: first-occurrence
order, duplicates collapsed onto their first position. -/
def firstKeys [DecidableEq α] (ks : List α) : List α → List α
  | [] => ks
  | k :: rest =>
      if k ∈ ks then firstKeys ks rest else firstKeys (ks ++ [k]) rest

/-- An RGBA pixel value (red, green, blue, alpha). -/
abbrev RGBA : Type := Nat × Nat × Nat × Nat

/-- A decoded PIL image in RGBA mode: its size plus the row-major pixel
payload. `Image.open(src)` / `src.copy()` followed by
`img.convert("RGBA")` (builder.py line 139-140) produce such a value;
entries of `mapping` are modelled as already decoded. -/
structure PILImage where
  width : Nat
  height : Nat
  pix : List (List RGBA)
deriving DecidableEq

/-- A unit recorded by pass 1 of `stack_dhd`: `('gap', gap_pixels)` or
`('img', img)` (builder.py lines 129 and 141). -/
inductive Item where
  | gap (g : Nat)
  | img (i : PILImage)
deriving DecidableEq

/-- An `alpha_composite` paste event: the image composited with its
top-left corner at `(x, y)` (builder.py line 158). -/
structure Paste where
  img : PILImage
  x : Nat
  y : Nat
deriving DecidableEq

/-- The output canvas of `stack_dhd`: the allocated `(max_w, total_h)`
size, the fill colour of `Image.new` (line 146), and the ordered
`alpha_composite` paste events of pass 2. The rendered pixel grid is a
deterministic function of this data, so equality of `Canvas` values is
pixel identity of the rendered (and saved) outputs. -/
structure Canvas where
  width : Nat
  height : Nat
  background : RGBA
  pastes : List Paste
deriving DecidableEq

/-- Default of `gap_pixels` in the signature of `stack_dhd`
(builder.py line 109). -/
def stack_dhd_gap_pixels_default : Nat := 6

/-- Default of `skip_missing` in the signature of `stack_dhd`
(builder.py line 109). -/
def stack_dhd_skip_missing_default : Bool := true

/-- Pass 1 of `stack_dhd` (builder.py lines 124-143): walk `order`,
appending gap and image units to `items`, accumulating `total_h` and
the running maximum width `max_w` (started at `1`); a label absent from
`mapping` is skipped when `skip_missing` and otherwise raises
`KeyError(label)`, modelled as `Except.error label`. -/
def pass1 (mapping : List (String × PILImage)) (gap_pixels : Nat)
    (skip_missing : Bool) :
    List (Option String) → List Item → Nat → Nat →
      Except String (List Item × Nat × Nat)
  | [], items, max_w, total_h => .ok (items, max_w, total_h)
  | none :: order, items, max_w, total_h =>
      pass1 mapping gap_pixels skip_missing order
        (items ++ [.gap gap_pixels]) max_w (total_h + gap_pixels)
  | some label :: order, items, max_w, total_h =>
      match dictGet? label mapping with
      | none =>
          if skip_missing then
            pass1 mapping gap_pixels skip_missing order items max_w total_h
          else .error label
      | some img =>
          pass1 mapping gap_pixels skip_missing order
            (items ++ [.img img]) (max max_w img.width)
            (total_h + img.height)

/-- Pass 2 of `stack_dhd` (builder.py lines 148-159): the cursor `y`
starts at `0`; a gap unit advances the cursor; an image unit is pasted
horizontally centered at `((max_w - img.width) / 2, y)` (integer floor
division; pass 1 makes `max_w` at least every recorded image's width,
so truncated Nat subtraction agrees with Python) and then the cursor
advances by the image's height. -/
def pass2 (max_w : Nat) : List Item → Nat → List Paste → List Paste
  | [], _, pastes => pastes
  | .gap g :: items, y, pastes => pass2 max_w items (y + g) pastes
  | .img img :: items, y, pastes =>
      pass2 max_w items (y + img.height)
        (pastes ++ [⟨img, (max_w - img.width) / 2, y⟩])

/-- `stack_dhd` (builder.py lines 109-162). The returned canvas is the
one saved to `dhd_image_output_path` (line 162); on `Except.error`
(the `KeyError` of line 136, raised during pass 1) no canvas is
created or saved, since line 146 is never reached. -/
def stack_dhd (order : List (Option String))
    (mapping : List (String × PILImage))
    (gap_pixels : Nat) (skip_missing : Bool) : Except String Canvas :=
  match pass1 mapping gap_pixels skip_missing order [] 1 0 with
  | .error label => .error label
  | .ok (items, max_w, total_h) =>
      .ok ⟨max_w, total_h, (255, 255, 255, 0), pass2 max_w items 0 []⟩

/-- The images of `order` resolved through `mapping`; spacers and (under
`skip_missing`) absent names resolve to nothing. -/
def resolvedImages (order : List (Option String))
    (mapping : List (String × PILImage)) : List PILImage :=
  order.filterMap fun l => l.bind fun s => dictGet? s mapping

/-- The number of spacer (`None`) entries of `order`. -/
def numSpacers (order : List (Option String)) : Nat :=
  order.countP fun l => l.isNone

/-- The unit list pass 1 records when no lookup fails hard. -/
def itemsOf (mapping : List (String × PILImage)) (gap_pixels : Nat) :
    List (Option String) → List Item
  | [] => []
  | none :: order => .gap gap_pixels :: itemsOf mapping gap_pixels order
  | some label :: order =>
      match dictGet? label mapping with
      | none => itemsOf mapping gap_pixels order
      | some img => .img img :: itemsOf mapping gap_pixels order

/-- The first component name of `order` that is absent from `mapping`,
if any: the name `KeyError` would carry. -/
def firstMissing (mapping : List (String × PILImage)) :
    List (Option String) → Option String
  | [] => none
  | none :: order => firstMissing mapping order
  | some label :: order =>
      match dictGet? label mapping with
      | none => some label
      | some _ => firstMissing mapping order

/-- Decidable form of "every component name of `order` is present in
`mapping`". -/
def allPresent (mapping : List (String × PILImage))
    (order : List (Option String)) : Bool :=
  order.all fun l =>
    match l with
    | none => true
    | some label => (dictGet? label mapping).isSome

/-- A row of the `components` table of the extracted JSON as
`make_component_dict` reads it (builder.py lines 84-88): `item_id` may
be the JSON null (`None`), `mapped_name` is a string. -/
structure ComponentRow where
  item_id : Option String
  mapped_name : String
deriving DecidableEq

/-- `make_component_dict` (builder.py lines 75-91): project the rows to
`(item_id, mapped_name)` pairs, keeping a row when `keep_none` or its
`item_id` is not `None`, and build a dict from the pairs in original
order (insertion order, last write wins). -/
def make_component_dict (components : List ComponentRow)
    (keep_none : Bool) : List (Option String × String) :=
  let pairs := (components.filter fun row => keep_none || row.item_id.isSome).map
    fun row => (row.item_id, row.mapped_name)
  pairs.foldl (fun d p => pyInsert p.1 p.2 d) []

/-- An ASCII character matched by the regex class `\w`: a letter, a
digit or an underscore. -/
def isWordChar (c : Char) : Bool :=
  c.isAlpha || c.isDigit || c == '_'

/-- An ASCII character matched by the regex class `\s`. -/
def isSpaceChar (c : Char) : Bool :=
  c == ' ' || c == '\t' || c == '\n' || c == '\r' || c == '\x0b' || c == '\x0c'

/-- Python `str.strip()`: remove leading and trailing whitespace. On
the text `slugify` strips — already filtered through `[^\w\s-]` — the
whitespace characters present are exactly those of `\s`. -/
def pyStrip (l : List Char) : List Char :=
  ((l.dropWhile isSpaceChar).reverse.dropWhile isSpaceChar).reverse

/-- `re.sub(r"[-\s]+", "_", text)`: each maximal run of whitespace and
hyphen characters becomes a single underscore. The flag marks being
inside such a run. -/
def collapseRuns (inRun : Bool) : List Char → List Char
  | [] => []
  | c :: rest =>
      if isSpaceChar c || c == '-' then
        if inRun then collapseRuns true rest
        else '_' :: collapseRuns true rest
      else c :: collapseRuns false rest

/-- `slugify` (builder.py lines 21-24) on the character list of an
ASCII input, on which `unicodedata.normalize("NFKD", text)` and
`.encode("ascii", "ignore").decode()` (line 22) are the identity: drop
every character that is not a word, whitespace or hyphen character,
strip, lowercase, then replace each run of whitespace and hyphens by a
single underscore. -/
def slugify (text : List Char) : List Char :=
  let t := text.filter fun c => isWordChar c || isSpaceChar c || c == '-'
  let t := pyStrip t
  let t := t.map Char.toLower
  collapseRuns false t

/-- `os.path.basename`: the part of the path after the last `/`. -/
def basename (p : List Char) : List Char :=
  (p.reverse.takeWhile fun c => c != '/').reverse

/-- `os.path.splitext(name)[0]`: the name with its last extension
removed; a dot preceded only by dots (the leading dots of a hidden
file name) does not start an extension. -/
def splitextStem (name : List Char) : List Char :=
  match name.reverse.dropWhile (fun c => c != '.') with
  | [] => name
  | _ :: before =>
      if before.all (fun c => c == '.') then name else before.reverse

/-- A hidden entry name: one beginning with a dot. -/
def isHiddenName (n : String) : Bool :=
  match n.toList with
  | [] => false
  | c :: _ => c == '.'

/-- `glob.glob(os.path.join(DHD_folder, '*'))` over a directory whose
entry names (files or subdirectories, none empty, none containing `/`)
are `entries`, in enumeration order: the full path `folder/name` of
each entry whose name does not start with a dot — the pattern `*` does
not match hidden entries. -/
def globStar (DHD_folder : String) (entries : List String) : List String :=
  (entries.filter fun n => !(isHiddenName n)).map
    fun n => DHD_folder ++ "/" ++ n

/-- `official_component_dict` (builder.py lines 93-107): a dict
comprehension from extension-stripped base name to full path over the
glob results; the directory listing is passed in as the entry names in
enumeration order. -/
def official_component_dict (DHD_folder : String) (entries : List String) :
    List (String × String) :=
  (globStar DHD_folder entries).foldl
    (fun image_map fp =>
      pyInsert (String.mk (splitextStem (basename fp.toList))) fp image_map) []

/-- A Python value written into a worksheet cell. -/
inductive PyVal where
  | none
  | str (s : String)
  | num (n : Int)
deriving DecidableEq

/-- A worksheet: an insertion-ordered map from (row, column) to the
cell value written there. -/
abbrev Sheet : Type := List ((Nat × Nat) × PyVal)

/-- openpyxl `ws.cell(row, column, value)`: the cell value is assigned
only when `value` is not `None`. -/
def ws_cell (ws : Sheet) (row col : Nat) (v : PyVal) : Sheet :=
  match v with
  | .none => ws
  | v => pyInsert (row, col) v ws

/-- openpyxl `ws[cellname] = value`: direct assignment to a named
cell, given here by its (row, column) coordinates. -/
def ws_assign (ws : Sheet) (row col : Nat) (v : PyVal) : Sheet :=
  pyInsert (row, col) v ws

/-- A component record as `create_dhd_excel` reads it (builder.py
lines 53-58): each field is fetched with `comp.get`, so an absent key
yields `None`. -/
structure ExcelComponent where
  item_id : PyVal
  name : PyVal
  length : PyVal
  depth : PyVal
  inner_diameter : PyVal
  outer_diameter : PyVal
deriving DecidableEq

/-- The extracted JSON document as `create_dhd_excel` reads it. A key
maps to an `Option` since `data[k]` raises `KeyError` on an absent key
while `data.get(k, default)` substitutes the default. -/
structure DHDData where
  well_name : Option String
  length_unit : Option String
  depth_unit : Option String
  inner_diameter_unit : Option String
  outer_diameter_unit : Option String
  components : Option (List ExcelComponent)
  end_of_tailpipe_depth : Option PyVal
deriving DecidableEq

/-- One row of the component table (builder.py lines 52-58): row `r`
receives the six component fields in columns 3 to 8. -/
def writeComponentRow (ws : Sheet) (r : Nat) (comp : ExcelComponent) : Sheet :=
  let ws := ws_cell ws r 3 comp.item_id
  let ws := ws_cell ws r 4 comp.name
  let ws := ws_cell ws r 5 comp.length
  let ws := ws_cell ws r 6 comp.depth
  let ws := ws_cell ws r 7 comp.inner_diameter
  ws_cell ws r 8 comp.outer_diameter

/-- The `enumerate` loop of builder.py lines 51-58: the component with
index `i` is written at row `start_row + i`. -/
def writeComponents (start_row : Nat) : Sheet → Nat → List ExcelComponent → Sheet
  | ws, _, [] => ws
  | ws, i, comp :: comps =>
      writeComponents start_row (writeComponentRow ws (start_row + i) comp) (i + 1) comps

/-- `create_dhd_excel` (builder.py lines 26-73): from the parsed JSON
document and the template sheet to the output path and the sheet saved
there. `Except.error k` models the `KeyError` raised by `data[k]` for
an absent key `k` (lines 31, 61 and 63); on an error nothing is
saved. -/
def create_dhd_excel (data : DHDData) (template : Sheet) :
    Except String (String × Sheet) :=
  match data.well_name with
  | Option.none => .error "well_name"
  | some wn =>
      let output_path := "/content/DHD_" ++ String.mk (slugify wn.toList) ++ ".xlsx"
      let ws := ws_assign template 2 4 (.str (data.well_name.getD ""))
      let ws := ws_assign ws 5 5 (.str (data.length_unit.getD ""))
      let ws := ws_assign ws 5 6 (.str (data.depth_unit.getD ""))
      let ws := ws_assign ws 5 7 (.str (data.inner_diameter_unit.getD ""))
      let ws := ws_assign ws 5 8 (.str (data.outer_diameter_unit.getD ""))
      let start_row := 6
      let ws := writeComponents start_row ws 0 (data.components.getD [])
      match data.components with
      | Option.none => .error "components"
      | some comps =>
          let end_row := start_row + comps.length
          let ws := ws_cell ws (end_row + 1) 4 (.str "END OF TAILPIPE")
          match data.end_of_tailpipe_depth with
          | Option.none => .error "end_of_tailpipe_depth"
          | some dv =>
              let ws := ws_cell ws (end_row + 1) 6 dv
              let last_depth_row := start_row + comps.length
              let ws := ws_cell ws (last_depth_row + 1) 6
                (data.end_of_tailpipe_depth.getD .none)
              .ok (output_path, ws)

/-- Modelled from the spec side as the comparison target of claim C10:
`create_dhd_excel` with the duplicate end-of-tailpipe depth write of
builder.py lines 66-68 removed, so the depth is written exactly
once. -/
def create_dhd_excel_single_write (data : DHDData) (template : Sheet) :
    Except String (String × Sheet) :=
  match data.well_name with
  | Option.none => .error "well_name"
  | some wn =>
      let output_path := "/content/DHD_" ++ String.mk (slugify wn.toList) ++ ".xlsx"
      let ws := ws_assign template 2 4 (.str (data.well_name.getD ""))
      let ws := ws_assign ws 5 5 (.str (data.length_unit.getD ""))
      let ws := ws_assign ws 5 6 (.str (data.depth_unit.getD ""))
      let ws := ws_assign ws 5 7 (.str (data.inner_diameter_unit.getD ""))
      let ws := ws_assign ws 5 8 (.str (data.outer_diameter_unit.getD ""))
      let start_row := 6
      let ws := writeComponents start_row ws 0 (data.components.getD [])
      match data.components with
      | Option.none => .error "components"
      | some comps =>
          let end_row := start_row + comps.length
          let ws := ws_cell ws (end_row + 1) 4 (.str "END OF TAILPIPE")
          match data.end_of_tailpipe_depth with
          | Option.none => .error "end_of_tailpipe_depth"
          | some dv =>
              let ws := ws_cell ws (end_row + 1) 6 dv
              .ok (output_path, ws)

theorem dictGet?_pyInsert_self [DecidableEq α] (k : α) (v : β)
    (d : List (α × β)) : dictGet? k (pyInsert k v d) = some v := by
  induction d with
  | nil => simp [pyInsert, dictGet?]
  | cons p rest ih =>
      obtain ⟨k0, v0⟩ := p
      by_cases h : k0 = k <;> simp [pyInsert, dictGet?, h, ih]

theorem dictGet?_pyInsert_ne [DecidableEq α] (k k1 : α) (v : β)
    (d : List (α × β)) (hne : k1 ≠ k) :
    dictGet? k (pyInsert k1 v d) = dictGet? k d := by
  induction d with
  | nil => simp [pyInsert, dictGet?, hne]
  | cons p rest ih =>
      obtain ⟨k0, v0⟩ := p
      by_cases h : k0 = k1
      · subst h
        simp [pyInsert, dictGet?, hne]
      · by_cases h2 : k0 = k <;>
          simp [pyInsert, dictGet?, h, h2, Ne.symm hne, ih]

theorem keys_pyInsert [DecidableEq α] (k : α) (v : β) (d : List (α × β)) :
    (pyInsert k v d).map Prod.fst =
      if k ∈ d.map Prod.fst then d.map Prod.fst else d.map Prod.fst ++ [k] := by
  induction d with
  | nil => simp [pyInsert]
  | cons p rest ih =>
      obtain ⟨k0, v0⟩ := p
      by_cases h : k0 = k
      · subst h
        simp [pyInsert]
      · have hne : ¬ k = k0 := fun hh => h hh.symm
        by_cases hmem : k ∈ rest.map Prod.fst <;>
          simp [pyInsert, h, hne, hmem, ih]

/-- Lookup in a dict built by a left fold of `pyInsert` over pairs:
the last write wins, and keys absent from the pairs keep their prior
binding. -/
theorem dictGet?_foldl_pyInsert [DecidableEq α] (k : α)
    (ps : List (α × β)) (d : List (α × β)) :
    dictGet? k (ps.foldl (fun m p => pyInsert p.1 p.2 m) d) =
      match lastValue k ps with
      | some v => some v
      | none => dictGet? k d := by
  induction ps generalizing d with
  | nil => simp [lastValue]
  | cons p rest ih =>
      obtain ⟨k1, v1⟩ := p
      rw [List.foldl_cons, ih]
      cases hlast : lastValue k rest with
      | some w => simp [lastValue, hlast]
      | none =>
          by_cases h : k1 = k
          · subst h
            simp [lastValue, hlast, dictGet?_pyInsert_self]
          · simp [lastValue, hlast, h, dictGet?_pyInsert_ne k k1 v1 d h]

/-- Key order of a dict built by a left fold of `pyInsert`: keys appear
in first-occurrence order. -/
theorem keys_foldl_pyInsert [DecidableEq α]
    (ps : List (α × β)) (d : List (α × β)) :
    (ps.foldl (fun m p => pyInsert p.1 p.2 m) d).map Prod.fst =
      firstKeys (d.map Prod.fst) (ps.map Prod.fst) := by
  induction ps generalizing d with
  | nil => simp [firstKeys]
  | cons p rest ih =>
      obtain ⟨k1, v1⟩ := p
      rw [List.foldl_cons, ih]
      by_cases hmem : k1 ∈ d.map Prod.fst <;>
        simp [firstKeys, hmem, keys_pyInsert]

theorem pyInsert_pyInsert_same [DecidableEq α] (k : α) (v : β)
    (d : List (α × β)) : pyInsert k v (pyInsert k v d) = pyInsert k v d := by
  induction d with
  | nil => simp [pyInsert]
  | cons p rest ih =>
      obtain ⟨k0, v0⟩ := p
      by_cases h : k0 = k <;> simp [pyInsert, h, ih]

theorem pass1_skip_true (mapping : List (String × PILImage))
    (gap_pixels : Nat) (order : List (Option String)) :
    ∀ (items : List Item) (max_w total_h : Nat),
    pass1 mapping gap_pixels true order items max_w total_h =
      .ok (items ++ itemsOf mapping gap_pixels order,
        (resolvedImages order mapping).foldl (fun w i => max w i.width) max_w,
        total_h + ((resolvedImages order mapping).map PILImage.height).sum +
          gap_pixels * numSpacers order) := by
  induction order with
  | nil => intro items max_w total_h; simp [pass1, itemsOf, resolvedImages, numSpacers]
  | cons l order ih =>
      intro items max_w total_h
      cases l with
      | none =>
          rw [pass1, ih]
          simp only [itemsOf, resolvedImages, numSpacers, List.filterMap_cons,
            Option.none_bind, List.countP_cons, Option.isNone_none]
          refine congrArg Except.ok ?_
          refine congrArg₂ Prod.mk (by simp) (congrArg₂ Prod.mk rfl ?_)
          simp only [resolvedImages] at *
          simp only [reduceIte]
          ring
      | some label =>
          rw [pass1]
          cases hlk : dictGet? label mapping with
          | none =>
              simp only [hlk, if_pos rfl]
              rw [ih]
              simp [itemsOf, resolvedImages, numSpacers, hlk, List.countP_cons]
          | some img =>
              simp only [hlk]
              rw [ih]
              simp only [itemsOf, resolvedImages, numSpacers, hlk,
                List.filterMap_cons, Option.some_bind, List.countP_cons,
                Option.isNone_some, List.foldl_cons, List.map_cons, List.sum_cons]
              refine congrArg Except.ok ?_
              refine congrArg₂ Prod.mk (by simp) (congrArg₂ Prod.mk rfl ?_)
              simp only [resolvedImages] at *
              simp
              ring

theorem pass1_allPresent (mapping : List (String × PILImage))
    (gap_pixels : Nat) (skip_missing : Bool) (order : List (Option String))
    (hall : allPresent mapping order = true) :
    ∀ (items : List Item) (max_w total_h : Nat),
    pass1 mapping gap_pixels skip_missing order items max_w total_h =
      .ok (items ++ itemsOf mapping gap_pixels order,
        (resolvedImages order mapping).foldl (fun w i => max w i.width) max_w,
        total_h + ((resolvedImages order mapping).map PILImage.height).sum +
          gap_pixels * numSpacers order) := by
  induction order with
  | nil => intro items max_w total_h; simp [pass1, itemsOf, resolvedImages, numSpacers]
  | cons l order ih =>
      intro items max_w total_h
      have hall2 : allPresent mapping order = true := by
        simp only [allPresent, List.all_cons, Bool.and_eq_true] at hall
        exact hall.2
      cases l with
      | none =>
          rw [pass1, ih hall2]
          simp only [itemsOf, resolvedImages, numSpacers, List.filterMap_cons,
            Option.none_bind, List.countP_cons, Option.isNone_none]
          refine congrArg Except.ok ?_
          refine congrArg₂ Prod.mk (by simp) (congrArg₂ Prod.mk rfl ?_)
          simp only [resolvedImages] at *
          simp only [reduceIte]
          ring
      | some label =>
          have hsome : (dictGet? label mapping).isSome := by
            simp only [allPresent, List.all_cons, Bool.and_eq_true] at hall
            exact hall.1
          rw [pass1]
          cases hlk : dictGet? label mapping with
          | none => rw [hlk] at hsome; simp at hsome
          | some img =>
              simp only [hlk]
              rw [ih hall2]
              simp only [itemsOf, resolvedImages, numSpacers, hlk,
                List.filterMap_cons, Option.some_bind, List.countP_cons,
                Option.isNone_some, List.foldl_cons, List.map_cons, List.sum_cons]
              refine congrArg Except.ok ?_
              refine congrArg₂ Prod.mk (by simp) (congrArg₂ Prod.mk rfl ?_)
              simp only [resolvedImages] at *
              simp
              ring

theorem pass1_firstMissing (mapping : List (String × PILImage))
    (gap_pixels : Nat) (order : List (Option String)) (label : String)
    (hfm : firstMissing mapping order = some label) :
    ∀ (items : List Item) (max_w total_h : Nat),
    pass1 mapping gap_pixels false order items max_w total_h =
      .error label := by
  induction order with
  | nil => simp [firstMissing] at hfm
  | cons l order ih =>
      intro items max_w total_h
      cases l with
      | none =>
          rw [firstMissing] at hfm
          rw [pass1]
          exact ih hfm _ _ _
      | some l0 =>
          rw [firstMissing] at hfm
          rw [pass1]
          cases hlk : dictGet? l0 mapping with
          | none =>
              rw [hlk] at hfm
              simp only [hlk]
              simp only [Option.some.injEq] at hfm
              simp [hfm]
          | some img =>
              rw [hlk] at hfm
              simp only [hlk]
              exact ih hfm _ _ _

theorem firstMissing_isSome_of_missing (mapping : List (String × PILImage))
    (order : List (Option String)) (s : String)
    (hmem : some s ∈ order) (habs : dictGet? s mapping = none) :
    (firstMissing mapping order).isSome := by
  induction order with
  | nil => simp at hmem
  | cons l order ih =>
      cases l with
      | none =>
          rw [firstMissing]
          exact ih (by simpa using hmem)
      | some l0 =>
          rw [firstMissing]
          cases hlk : dictGet? l0 mapping with
          | none => simp
          | some img =>
              rcases List.mem_cons.mp hmem with heq | htail
              · obtain rfl : l0 = s := by simpa using heq.symm
                rw [habs] at hlk
                cases hlk
              · exact ih htail

theorem ws_cell_ws_cell_same (ws : Sheet) (r c : Nat) (v : PyVal) :
    ws_cell (ws_cell ws r c v) r c v = ws_cell ws r c v := by
  cases v <;> simp [ws_cell, pyInsert_pyInsert_same]

theorem dictGet?_foldl_pyInsert_nil [DecidableEq α] (k : α)
    (ps : List (α × β)) :
    dictGet? k (ps.foldl (fun m p => pyInsert p.1 p.2 m) []) =
      lastValue k ps := by
  rw [dictGet?_foldl_pyInsert]
  cases h : lastValue k ps <;> simp [dictGet?]

theorem lastValue_isSome_of_mem [DecidableEq α] (k : α) (v : β)
    (ps : List (α × β)) (hmem : (k, v) ∈ ps) :
    (lastValue k ps).isSome = true := by
  induction ps with
  | nil => simp at hmem
  | cons p rest ih =>
      obtain ⟨k0, v0⟩ := p
      rw [lastValue]
      cases hl : lastValue k rest with
      | some w => simp
      | none =>
          rcases List.mem_cons.mp hmem with heq | htail
          · have hk : k0 = k := by
              have hfst := congrArg Prod.fst heq
              simpa using hfst.symm
            simp [hk]
          · have h2 := ih htail
            rw [hl] at h2
            simp at h2

theorem allPresent_of_firstMissing_none (mapping : List (String × PILImage))
    (order : List (Option String))
    (hfm : firstMissing mapping order = Option.none) :
    allPresent mapping order = true := by
  induction order with
  | nil => rfl
  | cons l order ih =>
      cases l with
      | none =>
          rw [firstMissing] at hfm
          simp only [allPresent, List.all_cons]
          simp only [allPresent] at ih
          simp [ih hfm]
      | some label =>
          rw [firstMissing] at hfm
          cases hlk : dictGet? label mapping with
          | none => rw [hlk] at hfm; cases hfm
          | some img =>
              rw [hlk] at hfm
              simp only [allPresent, List.all_cons]
              simp only [allPresent] at ih
              simp [hlk, ih hfm]

theorem foldl_max_width (imgs : List PILImage) :
    ∀ a : Nat, imgs.foldl (fun w i => max w i.width) a =
      max a ((imgs.map PILImage.width).foldr max 0) := by
  induction imgs with
  | nil => intro a; simp
  | cons i imgs ih =>
      intro a
      simp only [List.foldl_cons, List.map_cons, List.foldr_cons]
      rw [ih, max_assoc]

theorem one_le_foldr_max (imgs : List PILImage) (hne : imgs ≠ [])
    (hpos : ∀ i ∈ imgs, 1 ≤ i.width) :
    1 ≤ (imgs.map PILImage.width).foldr max 0 := by
  cases imgs with
  | nil => exact absurd rfl hne
  | cons i imgs =>
      simp only [List.map_cons, List.foldr_cons]
      exact le_trans (hpos i (by simp)) (le_max_left _ _)

theorem resolved_of_all_none (order : List (Option String))
    (mapping : List (String × PILImage))
    (hall : ∀ l ∈ order, l = Option.none) :
    resolvedImages order mapping = [] ∧ numSpacers order = order.length := by
  induction order with
  | nil => simp [resolvedImages, numSpacers]
  | cons l order ih =>
      have hl : l = Option.none := hall l (by simp)
      subst hl
      have hrec := ih fun x hx => hall x (by simp [hx])
      refine ⟨?_, ?_⟩
      · simpa [resolvedImages] using hrec.1
      · simp only [numSpacers, List.countP_cons, Option.isNone_none,
          List.length_cons, if_true, reduceIte]
        simp only [numSpacers] at hrec
        omega

/-- Whenever `stack_dhd` returns a canvas, the canvas carries the pass-1
measurements: width the running maximum (seeded with 1) of the resolved
images' widths, height the resolved heights plus the gaps. -/
theorem stack_dhd_ok_dims (order : List (Option String))
    (mapping : List (String × PILImage)) (gap_pixels : Nat)
    (skip : Bool) (c : Canvas)
    (hok : stack_dhd order mapping gap_pixels skip = .ok c) :
    c.width = (resolvedImages order mapping).foldl (fun w i => max w i.width) 1 ∧
    c.height = ((resolvedImages order mapping).map PILImage.height).sum +
      gap_pixels * numSpacers order := by
  cases skip with
  | true =>
      rw [stack_dhd, pass1_skip_true] at hok
      simp only [Except.ok.injEq] at hok
      subst hok
      simp
  | false =>
      cases hfm : firstMissing mapping order with
      | some label =>
          rw [stack_dhd, pass1_firstMissing mapping gap_pixels order label hfm] at hok
          cases hok
      | none =>
          have hall := allPresent_of_firstMissing_none mapping order hfm
          rw [stack_dhd, pass1_allPresent mapping gap_pixels false order hall] at hok
          simp only [Except.ok.injEq] at hok
          subst hok
          simp

theorem char_toNat_ofNat_add32 (n : Nat) (h2 : n ≤ 90) :
    (Char.ofNat (n + 32)).toNat = n + 32 := by
  have hv : (n + 32).isValidChar := Or.inl (by omega)
  rw [Char.ofNat, dif_pos hv]
  simp [Char.ofNatAux, Char.toNat, UInt32.toNat, BitVec.toNat_ofNatLt]

theorem isUpper_toLower (c : Char) : (Char.toLower c).isUpper = false := by
  unfold Char.toLower Char.isUpper
  by_cases h : c.toNat ≥ 65 ∧ c.toNat ≤ 90
  · rw [if_pos h]
    have h1 : (Char.ofNat (c.toNat + 32)).val.toNat = c.toNat + 32 :=
      char_toNat_ofNat_add32 c.toNat h.2
    simp only [Bool.and_eq_false_iff, decide_eq_false_iff_not]
    right
    intro hle
    have hle2 : (Char.ofNat (c.toNat + 32)).val.toNat ≤ (90 : UInt32).toNat := hle
    have he : (90 : UInt32).toNat = 90 := rfl
    omega
  · rw [if_neg h]
    simp only [Bool.and_eq_false_iff, decide_eq_false_iff_not]
    by_cases h65 : c.val ≥ 65
    · right
      intro hle
      apply h
      have ha : (65 : UInt32).toNat ≤ c.val.toNat := h65
      have hb : c.val.toNat ≤ (90 : UInt32).toNat := hle
      have e1 : (65 : UInt32).toNat = 65 := rfl
      have e2 : (90 : UInt32).toNat = 90 := rfl
      have e3 : c.toNat = c.val.toNat := rfl
      exact ⟨by omega, by omega⟩
    · left; exact h65

theorem collapseRuns_all (l : List Char) :
    ∀ inRun : Bool, l.all (fun c => !(c.isUpper)) = true →
    (collapseRuns inRun l).all
      (fun c => !(isSpaceChar c) && !(c == '-') && !(c.isUpper)) = true := by
  induction l with
  | nil => intro inRun _; rfl
  | cons c rest ih =>
      intro inRun hall
      rw [List.all_cons, Bool.and_eq_true] at hall
      rw [collapseRuns]
      by_cases hsep : (isSpaceChar c || c == '-') = true
      · rw [if_pos hsep]
        cases inRun with
        | true => simpa using ih true hall.2
        | false =>
            simp only [Bool.false_eq_true, if_false, List.all_cons]
            rw [Bool.and_eq_true]
            exact ⟨by decide, ih true hall.2⟩
      · rw [if_neg hsep]
        simp only [Bool.or_eq_true, not_or, Bool.not_eq_true] at hsep
        rw [List.all_cons, Bool.and_eq_true]
        refine ⟨?_, ih false hall.2⟩
        simp [hsep.1, hsep.2, hall.1]

/-- C1: for every non-empty `order` whose component names are all
present in `mapping`, `stack_dhd` produces a canvas whose height is the
sum of the heights of all referenced images plus `gap_pixels` times the
number of spacer (`None`) entries in `order` — measured entirely in
pass 1 before any paste event. -/
theorem C1_stack_dhd_height (order : List (Option String))
    (mapping : List (String × PILImage)) (gap_pixels : Nat)
    (skip : Bool) (hne : order ≠ [])
    (hall : allPresent mapping order = true) :
    ∃ c : Canvas,
      stack_dhd order mapping gap_pixels skip = .ok c ∧
      c.height =
        ((resolvedImages order mapping).map PILImage.height).sum +
          gap_pixels * numSpacers order := by
  rw [stack_dhd, pass1_allPresent mapping gap_pixels skip order hall]
  exact ⟨_, rfl, by simp⟩

/-- Witness for C1: two components, one of them a spacer. -/
theorem C1_stack_dhd_height_witness :
    ∃ c : Canvas,
      stack_dhd [some "a", Option.none] [("a", ⟨2, 3, []⟩)] 5 false = .ok c ∧
      c.height =
        ((resolvedImages [some "a", Option.none]
            [("a", ⟨2, 3, []⟩)]).map PILImage.height).sum +
          5 * numSpacers [some "a", Option.none] :=
  C1_stack_dhd_height [some "a", Option.none] [("a", ⟨2, 3, []⟩)] 5 false
    (by decide) (by decide)

/-- C2: whenever `stack_dhd` returns a canvas its width is the maximum
width among all resolved images, or 1 if no images are resolved
(image widths are positive — a raster image has at least one pixel
column); in particular an order of only spacers yields width 1 and
height the sum of the gaps. -/
theorem C2_stack_dhd_width (order : List (Option String))
    (mapping : List (String × PILImage)) (gap_pixels : Nat)
    (skip : Bool) (c : Canvas)
    (hpos : ∀ i ∈ resolvedImages order mapping, 1 ≤ i.width)
    (hok : stack_dhd order mapping gap_pixels skip = .ok c) :
    (c.width = if resolvedImages order mapping = [] then 1
      else ((resolvedImages order mapping).map PILImage.width).foldr max 0) ∧
    ((∀ l ∈ order, l = Option.none) →
      c.width = 1 ∧ c.height = gap_pixels * order.length) := by
  obtain ⟨hw, hh⟩ := stack_dhd_ok_dims order mapping gap_pixels skip c hok
  have hw2 : c.width =
      max 1 (((resolvedImages order mapping).map PILImage.width).foldr max 0) := by
    rw [hw, foldl_max_width]
  constructor
  · by_cases hemp : resolvedImages order mapping = []
    · rw [if_pos hemp, hw2, hemp]
      simp
    · rw [if_neg hemp, hw2]
      exact max_eq_right (one_le_foldr_max _ hemp hpos)
  · intro hnone
    obtain ⟨hres, hcnt⟩ := resolved_of_all_none order mapping hnone
    refine ⟨?_, ?_⟩
    · rw [hw2, hres]; simp
    · rw [hh, hres, hcnt]; simp

/-- Witness for C2: one image of width 2 and one spacer. -/
theorem C2_stack_dhd_width_witness :
    ((Canvas.mk 2 8 (255, 255, 255, 0) [⟨⟨2, 3, []⟩, 0, 0⟩]).width =
      if resolvedImages [some "a", Option.none] [("a", ⟨2, 3, []⟩)] = [] then 1
      else ((resolvedImages [some "a", Option.none]
        [("a", ⟨2, 3, []⟩)]).map PILImage.width).foldr max 0) ∧
    ((∀ l ∈ [some "a", Option.none], l = Option.none) →
      (Canvas.mk 2 8 (255, 255, 255, 0) [⟨⟨2, 3, []⟩, 0, 0⟩]).width = 1 ∧
      (Canvas.mk 2 8 (255, 255, 255, 0) [⟨⟨2, 3, []⟩, 0, 0⟩]).height =
        5 * [some "a", Option.none].length) :=
  C2_stack_dhd_width [some "a", Option.none] [("a", ⟨2, 3, []⟩)] 5 true
    (Canvas.mk 2 8 (255, 255, 255, 0) [⟨⟨2, 3, []⟩, 0, 0⟩])
    (by decide) rfl

/-- C3 counterexample: called at its declared defaults, `stack_dhd`
gives one spacer a height of 6, not 8 — the `gap_pixels` default in the
source is 6. -/
theorem C3_default_gap_counterexample :
    stack_dhd [Option.none] [] stack_dhd_gap_pixels_default
        stack_dhd_skip_missing_default =
      .ok ⟨1, 6, (255, 255, 255, 0), []⟩ ∧
    stack_dhd_gap_pixels_default ≠ 8 :=
  ⟨rfl, by decide⟩

/-- C3 amended: the Stack Compositor's `gap_pixels` parameter defaults
to 6 — calling `stack_dhd` without supplying `gap_pixels` (and with
`skip_missing` at its own default) uses a spacer height of 6 pixels for
every spacer sentinel in `order`. -/
theorem C3_default_gap :
    stack_dhd_gap_pixels_default = 6 ∧
    ∀ (order : List (Option String)) (mapping : List (String × PILImage)),
      ∃ c : Canvas,
        stack_dhd order mapping stack_dhd_gap_pixels_default
            stack_dhd_skip_missing_default = .ok c ∧
        c.height =
          ((resolvedImages order mapping).map PILImage.height).sum +
            6 * numSpacers order := by
  refine ⟨rfl, fun order mapping => ?_⟩
  rw [stack_dhd, stack_dhd_skip_missing_default, pass1_skip_true]
  exact ⟨_, rfl, by simp [stack_dhd_gap_pixels_default]⟩

/-- C4: with `skip_missing = true`, compositing `[A, B]` where the name
`B` is absent from `mapping` returns the very same canvas value as
compositing `[A]` alone — the missing name contributes no height, no
width and no paste event, so the outputs are pixel-identical. -/
theorem C4_skip_missing (A : Option String) (B : String)
    (mapping : List (String × PILImage)) (gap_pixels : Nat)
    (hB : dictGet? B mapping = Option.none) :
    stack_dhd [A, some B] mapping gap_pixels true =
      stack_dhd [A] mapping gap_pixels true := by
  cases A with
  | none => simp [stack_dhd, pass1, hB]
  | some s =>
      cases hs : dictGet? s mapping with
      | none => simp [stack_dhd, pass1, hB, hs]
      | some img => simp [stack_dhd, pass1, hB, hs]

/-- Witness for C4: `"b"` is absent from the mapping. -/
theorem C4_skip_missing_witness :
    stack_dhd [some "a", some "b"] [("a", ⟨2, 3, []⟩)] 5 true =
      stack_dhd [some "a"] [("a", ⟨2, 3, []⟩)] 5 true :=
  C4_skip_missing (some "a") "b" [("a", ⟨2, 3, []⟩)] 5 (by decide)

/-- C5: with `skip_missing = false`, an `order` containing a component
name absent from `mapping` makes `stack_dhd` raise `KeyError` carrying
the first offending name; the error occurs in pass 1, before the canvas
of line 146 exists, so no output is created or saved. -/
theorem C5_fail_fast (order : List (Option String))
    (mapping : List (String × PILImage)) (gap_pixels : Nat)
    (hmiss : ∃ s, some s ∈ order ∧ dictGet? s mapping = Option.none) :
    ∃ label, firstMissing mapping order = some label ∧
      stack_dhd order mapping gap_pixels false = .error label := by
  obtain ⟨s, hmem, habs⟩ := hmiss
  have hsome := firstMissing_isSome_of_missing mapping order s hmem habs
  obtain ⟨label, hl⟩ := Option.isSome_iff_exists.mp hsome
  refine ⟨label, hl, ?_⟩
  rw [stack_dhd, pass1_firstMissing mapping gap_pixels order label hl]

/-- Witness for C5: `"b"` is the missing name. -/
theorem C5_fail_fast_witness :
    ∃ label, firstMissing [("a", ⟨2, 3, []⟩)] [some "a", some "b"] = some label ∧
      stack_dhd [some "a", some "b"] [("a", ⟨2, 3, []⟩)] 5 false =
        .error label :=
  C5_fail_fast [some "a", some "b"] [("a", ⟨2, 3, []⟩)] 5
    ⟨"b", by decide, by decide⟩

/-- C6: `order = [None, "packer", None]` with `gap_pixels = 6` and a
40×100 packer image yields a 40×112 canvas whose only paste event puts
the packer's top-left corner at `(0, 6)`: horizontally centered by
`(40 - 40) / 2 = 0`, vertically past the first 6-pixel gap. -/
theorem C6_packer_scenario (pix : List (List RGBA)) (skip : Bool) :
    stack_dhd [Option.none, some "packer", Option.none]
        [("packer", ⟨40, 100, pix⟩)] 6 skip =
      .ok ⟨40, 112, (255, 255, 255, 0), [⟨⟨40, 100, pix⟩, 0, 6⟩]⟩ := by
  simp [stack_dhd, pass1, pass2, dictGet?]

/-- C7: `make_component_dict` maps each record's `item_id` to its
`mapped_name` with last-write-wins on duplicate keys, keys in
first-occurrence order of the (filtered) records; `keep_none = false`
excludes records whose `item_id` is `None`, so the two-record scenario
yields exactly `{"1": "Bit"}`. -/
theorem C7_make_component_dict :
    (∀ (components : List ComponentRow) (keep : Bool) (k : Option String),
      dictGet? k (make_component_dict components keep) =
        lastValue k ((components.filter fun row =>
            keep || row.item_id.isSome).map
          fun row => (row.item_id, row.mapped_name))) ∧
    (∀ (components : List ComponentRow) (keep : Bool),
      (make_component_dict components keep).map Prod.fst =
        firstKeys [] ((components.filter fun row =>
            keep || row.item_id.isSome).map
          fun row => row.item_id)) ∧
    make_component_dict [⟨some "1", "Bit"⟩, ⟨Option.none, "Sub"⟩] false =
      [(some "1", "Bit")] := by
  refine ⟨?_, ?_, by decide⟩
  · intro components keep k
    rw [make_component_dict]
    exact dictGet?_foldl_pyInsert_nil k _
  · intro components keep
    rw [make_component_dict]
    rw [keys_foldl_pyInsert]
    simp only [List.map_map, List.map_nil]
    rfl

/-- C8: `slugify` — dropping every character that is not a word,
whitespace or hyphen character, stripping, lowercasing and collapsing
each whitespace/hyphen run to a single underscore (Unicode NFKD
normalisation and diacritic stripping are the identity on ASCII
input) — leaves no whitespace, hyphen or uppercase letter in its
output, and maps the well name `"Acracia # 1"` to `"acracia_1"`. -/
theorem C8_slugify :
    String.mk (slugify "Acracia # 1".toList) = "acracia_1" ∧
    ∀ text : List Char,
      (slugify text).all
        (fun c => !(isSpaceChar c) && !(c == '-') && !(c.isUpper)) = true := by
  refine ⟨by decide, fun text => ?_⟩
  rw [slugify]
  apply collapseRuns_all
  rw [List.all_eq_true]
  intro c hc
  obtain ⟨d, _, rfl⟩ := List.mem_map.mp hc
  simp [isUpper_toLower]

/-- C9 counterexample: a directory containing exactly one file, named
`.hidden` — `glob('*')` does not match hidden entries, so the produced
mapping is empty and has no entry for that file, contrary to "one entry
for every file directly inside the directory". -/
theorem C9_official_component_dict_counterexample :
    official_component_dict "d" [".hidden"] = [] ∧
    ¬ ∃ k, dictGet? k (official_component_dict "d" [".hidden"]) =
        some "d/.hidden" := by
  have h : official_component_dict "d" [".hidden"] = [] := by decide
  refine ⟨h, ?_⟩
  rintro ⟨k, hk⟩
  rw [h] at hk
  simp [dictGet?] at hk

/-- C9 amended: `official_component_dict` builds its mapping over the
non-hidden entries matched by `glob('*')` (hidden files are omitted,
subdirectories are included like files): looking up a key returns the
full path of the last such entry whose extension-stripped base name is
that key, and every non-hidden entry's stem is present as a key —
entries sharing a stem collapse to the single, last-written one. -/
theorem C9_official_component_dict (DHD_folder : String)
    (entries : List String) :
    (∀ k, dictGet? k (official_component_dict DHD_folder entries) =
      lastValue k ((globStar DHD_folder entries).map
        fun fp => (String.mk (splitextStem (basename fp.toList)), fp))) ∧
    (∀ n ∈ entries, isHiddenName n = false →
      (dictGet? (String.mk (splitextStem
          (basename (DHD_folder ++ "/" ++ n).toList)))
        (official_component_dict DHD_folder entries)).isSome = true) := by
  have hmain : ∀ k, dictGet? k (official_component_dict DHD_folder entries) =
      lastValue k ((globStar DHD_folder entries).map
        fun fp => (String.mk (splitextStem (basename fp.toList)), fp)) := by
    intro k
    rw [official_component_dict]
    rw [show (globStar DHD_folder entries).foldl
        (fun image_map fp =>
          pyInsert (String.mk (splitextStem (basename fp.toList))) fp image_map)
        [] =
      ((globStar DHD_folder entries).map
        (fun fp => (String.mk (splitextStem (basename fp.toList)), fp))).foldl
        (fun m p => pyInsert p.1 p.2 m) [] from by
        rw [List.foldl_map]]
    exact dictGet?_foldl_pyInsert_nil k _
  refine ⟨hmain, fun n hn hhid => ?_⟩
  rw [hmain]
  apply lastValue_isSome_of_mem _ (DHD_folder ++ "/" ++ n)
  rw [List.mem_map]
  refine ⟨DHD_folder ++ "/" ++ n, ?_, rfl⟩
  rw [globStar, List.mem_map]
  exact ⟨n, List.mem_filter.mpr ⟨hn, by simp [hhid]⟩, rfl⟩

/-- Witness for C9 amended: one visible file `a.png`. -/
theorem C9_official_component_dict_witness :
    (dictGet? (String.mk (splitextStem (basename ("d" ++ "/" ++ "a.png").toList)))
      (official_component_dict "d" ["a.png"])).isSome = true :=
  (C9_official_component_dict "d" ["a.png"]).2 "a.png" (by decide) (by decide)

/-- C10: with the `end_of_tailpipe_depth` key present, the duplicate
depth write of builder.py lines 66-68 stores the same value in the same
cell — row `start_row + len(components) + 1 = 6 + len + 1`, column 6 —
as the write of line 63, so `create_dhd_excel` equals its single-write
variant: the duplicate is idempotent and affects no other cell. -/
theorem C10_create_dhd_excel_duplicate_write (template : Sheet)
    (wn : String) (lu du idu odu : Option String)
    (comps : List ExcelComponent) (v : PyVal) :
    create_dhd_excel ⟨some wn, lu, du, idu, odu, some comps, some v⟩ template =
      create_dhd_excel_single_write
        ⟨some wn, lu, du, idu, odu, some comps, some v⟩ template ∧
    (v ≠ PyVal.none →
      ∀ out, create_dhd_excel ⟨some wn, lu, du, idu, odu, some comps, some v⟩
          template = .ok out →
        dictGet? (6 + comps.length + 1, 6) out.2 = some v) := by
  constructor
  · simp only [create_dhd_excel, create_dhd_excel_single_write, Option.getD_some]
    rw [ws_cell_ws_cell_same]
  · intro hv out hout
    simp only [create_dhd_excel, Option.getD_some, Except.ok.injEq] at hout
    rw [ws_cell_ws_cell_same] at hout
    subst hout
    cases v with
    | none => exact absurd rfl hv
    | str s => exact dictGet?_pyInsert_self _ _ _
    | num n => exact dictGet?_pyInsert_self _ _ _

/-- Witness for C10 at a concrete document with no components and
depth 3. -/
theorem C10_create_dhd_excel_duplicate_write_witness :
    ∃ out, create_dhd_excel ⟨some "w", Option.none, Option.none, Option.none,
        Option.none, some [], some (PyVal.num 3)⟩ [] = .ok out ∧
      dictGet? (6 + ([] : List ExcelComponent).length + 1, 6) out.2 =
        some (PyVal.num 3) := by
  refine ⟨_, rfl, ?_⟩
  exact (C10_create_dhd_excel_duplicate_write [] "w" Option.none Option.none
    Option.none Option.none [] (PyVal.num 3)).2 (by decide) _ rfl

end DHD
